import Mathlib

/-
A verification development for the r-python-conversion notebook: a shallow
embedding of the dataset-conversion workflow it teaches (Loom export/import,
the in-process R/Python bridge, and the manual post-processing fixups), with
proofs of the specified properties.

Strings are modelled as `String` (lists of characters), numeric matrix
values as exact rationals, and a dataset as the Annotated Matrix Dataset of
the specification: a matrix in dense or sparse storage, ordered axis
identifier sequences, the two attribute mappings (kept as ordered
association lists, as pandas/Bioconductor keep column order), and the
matrix tag.
-/

/-! ## Python-style string operations

`normalizeName` embeds the notebook line
`adata.obs.columns.str.strip().str.lower().str.replace(' ', '_').str.replace('.', '_')`.
In the pandas releases contemporary with the notebook, `.str.replace` with a
single-character pattern performs a literal (non-regex) per-character
replacement, which is also what the surrounding prose describes. -/

def pyIsSpace (c : Char) : Bool :=
  c.toNat = 32 || c.toNat = 9 || c.toNat = 10 || c.toNat = 13 || c.toNat = 11 || c.toNat = 12

def pyStrip (s : List Char) : List Char :=
  ((s.dropWhile pyIsSpace).reverse.dropWhile pyIsSpace).reverse

def pyLower (s : List Char) : List Char :=
  s.map Char.toLower

def pyReplaceChar (a b : Char) (s : List Char) : List Char :=
  s.map (fun c => if c = a then b else c)

def normalizeName (s : List Char) : List Char :=
  pyReplaceChar '.' '_' (pyReplaceChar ' ' '_' (pyLower (pyStrip s)))

/-- The specification's description of the transform, fused into one
per-character map: lowercase, then a space or period becomes an underscore. -/
def specNormChar (c : Char) : Char :=
  if Char.toLower c = ' ' || Char.toLower c = '.' then '_' else Char.toLower c

/-- The specification's description of the whole transform: trim
leading/trailing whitespace, then map every character by `specNormChar`. -/
def specNormalizeName (s : List Char) : List Char :=
  (pyStrip s).map specNormChar

def normalizeNameStr (s : String) : String :=
  String.mk (normalizeName s.data)

/-! ## The Annotated Matrix Dataset -/

/-- Matrix storage: dense rows (observations by variables), or sparse
nonzero entries as (row, column, value) triples with an explicit shape,
as `scipy.sparse.csr_matrix` stores only nonzero entries. -/
inductive MatrixRep where
  | dense (rows : List (List Rat))
  | csr (nrows ncols : Nat) (entries : List (Nat × Nat × Rat))
deriving DecidableEq

def ncolsOf (rows : List (List Rat)) : Nat := (rows.headD []).length

def denseEntry (rows : List (List Rat)) (i j : Nat) : Rat :=
  (rows.getD i []).getD j 0

def csrLookup (i j : Nat) : List (Nat × Nat × Rat) → Rat
  | [] => 0
  | e :: rest => if e.1 = i ∧ e.2.1 = j then e.2.2 else csrLookup i j rest

def MatrixRep.entry : MatrixRep → Nat → Nat → Rat
  | .dense rows, i, j => denseEntry rows i j
  | .csr _ _ es, i, j => csrLookup i j es

/-- Nonzero entries of one dense row, with row index `i`, starting at
column index `j`. -/
def rowToEntries (i : Nat) : Nat → List Rat → List (Nat × Nat × Rat)
  | _, [] => []
  | j, v :: vs =>
    if v = 0 then rowToEntries i (j + 1) vs else (i, j, v) :: rowToEntries i (j + 1) vs

/-- Nonzero entries of a dense matrix, starting at row index `i`. -/
def denseToEntries : Nat → List (List Rat) → List (Nat × Nat × Rat)
  | _, [] => []
  | i, row :: rest => rowToEntries i 0 row ++ denseToEntries (i + 1) rest

/-- Densification of a sparse matrix of the given shape. -/
def entriesToDense (nrows ncols : Nat) (es : List (Nat × Nat × Rat)) : List (List Rat) :=
  (List.range nrows).map (fun i => (List.range ncols).map (fun j => csrLookup i j es))

/-- The Annotated Matrix Dataset of the specification. -/
structure Dataset where
  X : MatrixRep
  obsNames : List String
  varNames : List String
  obsAttrs : List (String × List String)
  varAttrs : List (String × List String)
  assayName : String
deriving DecidableEq

/-- First value bound to a key in an attribute mapping (pandas column
access by label finds the first matching column). -/
def lookupAttr (k : String) : List (String × List String) → Option (List String)
  | [] => none
  | p :: rest => if p.1 = k then some p.2 else lookupAttr k rest

/-! ## The converter's operations -/

/-- The notebook's observation-attribute-name normalization, applied to the
`obs` column labels only (`adata.obs.columns = ...`). -/
def normalize_observation_attribute_names (d : Dataset) : Dataset :=
  { d with obsAttrs := d.obsAttrs.map (fun p => (normalizeNameStr p.1, p.2)) }

/-- The notebook's matrix renaming, `names(assays(adata)) <- "counts"`:
a pure relabelling of the primary matrix tag. -/
def rename_matrix (d : Dataset) (newName : String) : Dataset :=
  { d with assayName := newName }

/-- The notebook's `adata.X = csr_matrix(adata.X)`: dense storage becomes
sparse storage of the same values; already-sparse storage is kept. -/
def coerce_matrix_sparse (d : Dataset) : Dataset :=
  { d with X := match d.X with
      | .dense rows => .csr rows.length (ncolsOf rows) (denseToEntries 0 rows)
      | r => r }

/-- Densification of the matrix storage (`.toarray()` on the sparse form);
already-dense storage is kept. -/
def coerce_matrix_dense (d : Dataset) : Dataset :=
  { d with X := match d.X with
      | .csr n c es => .dense (entriesToDense n c es)
      | r => r }

/-- The relabelling step of the notebook's post-import fixup,
`adata.var.rename(columns={"rownames": "gene_ids"})`. -/
def renameRownamesColumn (l : List (String × List String)) : List (String × List String) :=
  l.map (fun p => if p.1 = "rownames" then ("gene_ids", p.2) else p)

/-- The notebook's post-import fixup for the identifier-placement quirk:
`adata.var = adata.var.rename(columns={"rownames": "gene_ids"})` followed by
`adata.var.index = adata.var.gene_ids`.  The renamed column's values become
the variable-identifier sequence. -/
def fix_var_index (d : Dataset) : Dataset :=
  let va := renameRownamesColumn d.varAttrs
  { d with varAttrs := va, varNames := (lookupAttr "gene_ids" va).getD d.varNames }

/-! ## Loom export and import

The loom writer and reader are calls into external libraries
(LoomExperiment and scanpy); the definitions below are modelled from the
specification's contract for them, with the identifier-placement quirk the
notebook's recorded import output exhibits. -/

/-- The file artifact: one matrix payload plus axis identifiers and the two
attribute tables. -/
structure LoomFile where
  matrix : MatrixRep
  obsIds : List String
  varIds : List String
  obsAttrs : List (String × List String)
  varAttrs : List (String × List String)
deriving DecidableEq

/-- Modelled from the spec: `export` serializes the matrix and both
attribute mappings into a single self-describing container, preserving axis
identifiers, attribute names, and attribute values exactly.  The writer
itself (LoomExperiment's `export`) is external to the repository. -/
def exportLoom (d : Dataset) : LoomFile :=
  { matrix := d.X, obsIds := d.obsNames, varIds := d.varNames,
    obsAttrs := d.obsAttrs, varAttrs := d.varAttrs }

/-- Modelled from the spec: `import` reconstructs the dataset, with the
documented identifier-placement quirk — the variable-identifier sequence is
placed into a regular variable attribute named `rownames` rather than into
the identifier slot, which is left holding positional labels.  The
notebook's recorded import output (`var: 'ENSEMBL', 'Length', 'SEQNAME',
'SYMBOL', 'rownames'`) shows the quirk manifesting.  The reader itself
(scanpy's `read_loom`) is external to the repository. -/
def importLoom (f : LoomFile) : Dataset :=
  { X := f.matrix, obsNames := f.obsIds,
    varNames := (List.range f.varIds.length).map (fun i => Nat.repr i),
    obsAttrs := f.obsAttrs,
    varAttrs := f.varAttrs ++ [("rownames", f.varIds)],
    assayName := "X" }

/-! ## The in-process bridge

The bridge (rpy2 with anndata2ri) is an external library; the definitions
below are modelled from the specification's contract and the notebook's
recorded outputs on either side of it. -/

/-- Recorded output of the notebook: the observation-attribute names of the
AnnData produced by the bridge from the R dataset. -/
def annObsNamesRecorded : List String :=
  ["Source Name", "cell line", "cell type", "single cell well quality",
   "genotype", "phenotype", "strain", "spike-in addition", "block"]

/-- Modelled from the notebook's recorded outputs: passing an AnnData into R
rewrites each observation-attribute name to R's naming convention, replacing
each space and hyphen with a period (the bridged AnnData lists
`'Source Name'` and `'spike-in addition'`; the same data shown back inside R
lists `Source.Name` and `spike.in.addition`). -/
def rConvChar (c : Char) : Char :=
  if c = ' ' || c = '-' then '.' else c

def bridge_py_to_r_name (s : String) : String :=
  String.mk (s.data.map rConvChar)

/-- Modelled from the spec: in the R-to-Python direction the bridge passes
attribute-name strings through unchanged. -/
def bridge_r_to_py_name (s : String) : String := s

/-- Modelled from the spec and the recorded shapes: the bridge maps the
ecosystem-A matrix (variables by observations, recorded as 46604 by 192) to
the ecosystem-B matrix (observations by variables, recorded as 192 by
46604), transposing the axes while preserving every numeric value. -/
def bridge_convert_matrix (rows : List (List Rat)) : List (List Rat) :=
  (List.range (ncolsOf rows)).map
    (fun i => (List.range rows.length).map (fun j => denseEntry rows j i))

/-- Recorded output: the bridged AnnData's shape, `n_obs` by `n_vars`. -/
def annShapeRecorded : Nat × Nat := (192, 46604)

/-- Recorded output: the R dataset's `dim`, variables by observations. -/
def sceDimRecorded : Nat × Nat := (46604, 192)

/-! ## Concrete example data for witnesses -/

def exampleDataset : Dataset :=
  { X := .dense [[1, 0], [0, 2]],
    obsNames := ["cellA", "cellB"],
    varNames := ["geneA", "geneB"],
    obsAttrs := [("Source.Name", ["s1", "s2"])],
    varAttrs := [("ENSEMBL", ["e1", "e2"])],
    assayName := "counts" }

def exampleSparseDataset : Dataset :=
  { X := .csr 2 2 [(0, 0, 1), (1, 1, 2)],
    obsNames := ["cellA", "cellB"],
    varNames := ["geneA", "geneB"],
    obsAttrs := [("Source.Name", ["s1", "s2"])],
    varAttrs := [("ENSEMBL", ["e1", "e2"])],
    assayName := "X" }

def exampleImported : Dataset :=
  { X := .dense [[1, 0], [0, 2]],
    obsNames := ["cellA", "cellB"],
    varNames := ["0", "1"],
    obsAttrs := [("Source.Name", ["s1", "s2"])],
    varAttrs := [("ENSEMBL", ["e1", "e2"]), ("rownames", ["geneA", "geneB"])],
    assayName := "X" }

/-! ## Character lemmas -/

theorem toNat_ofNatAux (n : Nat) (h : n.isValidChar) : (Char.ofNatAux n h).toNat = n := rfl

theorem toNat_ofNat_valid (n : Nat) (h : n < 55296) : (Char.ofNat n).toNat = n := by
  have hv : n.isValidChar := Or.inl h
  rw [Char.ofNat, dif_pos hv]
  exact toNat_ofNatAux n hv

theorem toLower_idem (c : Char) : Char.toLower (Char.toLower c) = Char.toLower c := by
  unfold Char.toLower
  by_cases h : c.toNat ≥ 65 ∧ c.toNat ≤ 90
  · rw [if_pos h]
    have h2 : (Char.ofNat (c.toNat + 32)).toNat = c.toNat + 32 :=
      toNat_ofNat_valid _ (by omega)
    rw [if_neg]
    rw [h2]
    omega
  · rw [if_neg h, if_neg h]

theorem pyIsSpace_toLower (c : Char) (h : pyIsSpace c = false) :
    pyIsSpace (Char.toLower c) = false := by
  unfold Char.toLower
  by_cases hc : c.toNat ≥ 65 ∧ c.toNat ≤ 90
  · rw [if_pos hc]
    have h2 : (Char.ofNat (c.toNat + 32)).toNat = c.toNat + 32 :=
      toNat_ofNat_valid _ (by omega)
    simp only [pyIsSpace, Bool.or_eq_false_iff, decide_eq_false_iff_not] at h ⊢
    rw [h2]
    omega
  · rw [if_neg hc]
    exact h

theorem pyIsSpace_specNormChar (c : Char) (h : pyIsSpace c = false) :
    pyIsSpace (specNormChar c) = false := by
  unfold specNormChar
  by_cases hc : (Char.toLower c = ' ' || Char.toLower c = '.') = true
  · rw [if_pos hc]
    decide
  · rw [if_neg hc]
    exact pyIsSpace_toLower c h

theorem specNormChar_idem (c : Char) : specNormChar (specNormChar c) = specNormChar c := by
  by_cases hc : (Char.toLower c = ' ' || Char.toLower c = '.') = true
  · have h1 : specNormChar c = '_' := by rw [specNormChar, if_pos hc]
    rw [h1]
    decide
  · have h1 : specNormChar c = Char.toLower c := by rw [specNormChar, if_neg hc]
    rw [h1, specNormChar, toLower_idem]
    rw [if_neg hc]

/-! ## List lemmas for trimming -/

theorem dropWhile_length_le {α : Type} (p : α → Bool) (l : List α) :
    (List.dropWhile p l).length ≤ l.length := by
  induction l with
  | nil => exact Nat.le_refl 0
  | cons c t ih =>
    cases hp : p c with
    | false => simp [List.dropWhile_cons, hp]
    | true =>
      rw [List.dropWhile_cons, if_pos hp]
      exact Nat.le_succ_of_le ih

theorem dropWhile_cons_eq_self_iff {α : Type} (p : α → Bool) (c : α) (t : List α) :
    List.dropWhile p (c :: t) = c :: t ↔ p c = false := by
  constructor
  · intro h
    cases hp : p c with
    | false => rfl
    | true =>
      rw [List.dropWhile_cons, if_pos hp] at h
      have hlen := dropWhile_length_le p t
      rw [h] at hlen
      simp at hlen
  · intro h
    rw [List.dropWhile_cons, if_neg (by simp [h])]

theorem dropWhile_dropWhile {α : Type} (p : α → Bool) (l : List α) :
    List.dropWhile p (List.dropWhile p l) = List.dropWhile p l := by
  induction l with
  | nil => rfl
  | cons c t ih =>
    cases hp : p c with
    | false =>
      rw [List.dropWhile_cons, if_neg (by simp [hp])]
      exact (dropWhile_cons_eq_self_iff p c t).2 hp
    | true =>
      rw [List.dropWhile_cons, if_pos hp]
      exact ih

theorem dropWhile_decomposition {α : Type} (p : α → Bool) (l : List α) :
    ∃ u, l = u ++ List.dropWhile p l := by
  induction l with
  | nil => exact ⟨[], rfl⟩
  | cons c t ih =>
    cases hp : p c with
    | false =>
      refine ⟨[], ?_⟩
      rw [List.dropWhile_cons, if_neg (by simp [hp])]
      rfl
    | true =>
      obtain ⟨u, hu⟩ := ih
      refine ⟨c :: u, ?_⟩
      rw [List.dropWhile_cons, if_pos hp, List.cons_append]
      exact congrArg (List.cons c) hu

theorem dropWhile_take_eq_self {α : Type} (p : α → Bool) {l : List α}
    (h : List.dropWhile p l = l) (n : Nat) :
    List.dropWhile p (List.take n l) = List.take n l := by
  cases l with
  | nil => simp
  | cons c t =>
    cases n with
    | zero => simp
    | succ m =>
      have hc : p c = false := (dropWhile_cons_eq_self_iff p c t).1 h
      rw [List.take_succ_cons]
      exact (dropWhile_cons_eq_self_iff p c _).2 hc

theorem dropWhile_map_eq_self {α : Type} {p : α → Bool} {f : α → α} {l : List α}
    (h : List.dropWhile p l = l) (hf : ∀ c, p c = false → p (f c) = false) :
    List.dropWhile p (List.map f l) = List.map f l := by
  cases l with
  | nil => rfl
  | cons c t =>
    have hc : p c = false := (dropWhile_cons_eq_self_iff p c t).1 h
    rw [List.map_cons]
    exact (dropWhile_cons_eq_self_iff p (f c) _).2 (hf c hc)

/-! ## Trimming lemmas for `pyStrip` -/

theorem take_of_append {α : Type} {a b c : List α} (h : a = b ++ c) :
    b = List.take b.length a := by
  rw [h, List.take_left]

theorem pyStrip_front_ok (s : List Char) :
    List.dropWhile pyIsSpace (pyStrip s) = pyStrip s := by
  have key : ∀ r : List Char, List.dropWhile pyIsSpace r = r →
      List.dropWhile pyIsSpace (List.dropWhile pyIsSpace r.reverse).reverse
        = (List.dropWhile pyIsSpace r.reverse).reverse := by
    intro r hr
    obtain ⟨u, hu⟩ := dropWhile_decomposition pyIsSpace r.reverse
    have hrd : r = (List.dropWhile pyIsSpace r.reverse).reverse ++ u.reverse := by
      have h2 := congrArg List.reverse hu
      rw [List.reverse_reverse, List.reverse_append] at h2
      exact h2
    have htake := take_of_append hrd
    rw [htake]
    exact dropWhile_take_eq_self pyIsSpace hr _
  exact key (List.dropWhile pyIsSpace s) (dropWhile_dropWhile pyIsSpace s)

theorem pyStrip_back_ok (s : List Char) :
    List.dropWhile pyIsSpace (pyStrip s).reverse = (pyStrip s).reverse := by
  unfold pyStrip
  rw [List.reverse_reverse]
  exact dropWhile_dropWhile pyIsSpace _

theorem pyStrip_eq_self {l : List Char}
    (h1 : List.dropWhile pyIsSpace l = l)
    (h2 : List.dropWhile pyIsSpace l.reverse = l.reverse) :
    pyStrip l = l := by
  unfold pyStrip
  rw [h1, h2, List.reverse_reverse]

theorem pyStrip_map_pyStrip {f : Char → Char}
    (hf : ∀ c, pyIsSpace c = false → pyIsSpace (f c) = false) (s : List Char) :
    pyStrip (List.map f (pyStrip s)) = List.map f (pyStrip s) := by
  apply pyStrip_eq_self
  · exact dropWhile_map_eq_self (pyStrip_front_ok s) hf
  · rw [← List.map_reverse]
    exact dropWhile_map_eq_self (pyStrip_back_ok s) hf

/-! ## The normalization transform -/

theorem normChar_pointwise (c : Char) :
    (fun c => if c = '.' then '_' else c)
      ((fun c => if c = ' ' then '_' else c) (Char.toLower c)) = specNormChar c := by
  have hud : ('_' : Char) ≠ '.' := by decide
  simp only [specNormChar]
  by_cases h1 : Char.toLower c = ' '
  · simp [h1, hud]
  · by_cases h2 : Char.toLower c = '.'
    · simp [h1, h2]
    · simp [h1, h2]

theorem normalizeName_eq_spec (s : List Char) :
    normalizeName s = specNormalizeName s := by
  unfold normalizeName specNormalizeName pyLower pyReplaceChar
  rw [List.map_map, List.map_map]
  refine congrArg (fun f => List.map f (pyStrip s)) ?_
  funext c
  exact normChar_pointwise c

theorem normalizeName_idem (s : List Char) :
    normalizeName (normalizeName s) = normalizeName s := by
  rw [normalizeName_eq_spec (normalizeName s), normalizeName_eq_spec s]
  unfold specNormalizeName
  rw [pyStrip_map_pyStrip pyIsSpace_specNormChar s, List.map_map]
  refine congrArg (fun f => List.map f (pyStrip s)) ?_
  funext c
  exact specNormChar_idem c

theorem normalizeNameStr_idem (s : String) :
    normalizeNameStr (normalizeNameStr s) = normalizeNameStr s := by
  unfold normalizeNameStr
  exact congrArg String.mk (normalizeName_idem s.data)

/-! ## Sparse storage lemmas -/

theorem rowToEntries_col_ge (i : Nat) : ∀ (row : List Rat) (j0 : Nat),
    ∀ e ∈ rowToEntries i j0 row, j0 ≤ e.2.1 := by
  intro row
  induction row with
  | nil =>
    intro j0 e he
    simp [rowToEntries] at he
  | cons v vs ih =>
    intro j0 e he
    by_cases hv : v = 0
    · rw [rowToEntries, if_pos hv] at he
      have := ih (j0 + 1) e he
      omega
    · rw [rowToEntries, if_neg hv] at he
      rcases List.mem_cons.1 he with h | h
      · rw [h]
      · have := ih (j0 + 1) e h
        omega

theorem rowToEntries_row_eq (i : Nat) : ∀ (row : List Rat) (j0 : Nat),
    ∀ e ∈ rowToEntries i j0 row, e.1 = i := by
  intro row
  induction row with
  | nil =>
    intro j0 e he
    simp [rowToEntries] at he
  | cons v vs ih =>
    intro j0 e he
    by_cases hv : v = 0
    · rw [rowToEntries, if_pos hv] at he
      exact ih (j0 + 1) e he
    · rw [rowToEntries, if_neg hv] at he
      rcases List.mem_cons.1 he with h | h
      · rw [h]
      · exact ih (j0 + 1) e h

theorem csrLookup_eq_zero {i j : Nat} : ∀ l : List (Nat × Nat × Rat),
    (∀ e ∈ l, ¬(e.1 = i ∧ e.2.1 = j)) → csrLookup i j l = 0 := by
  intro l
  induction l with
  | nil => intro _; rfl
  | cons e rest ih =>
    intro h
    rw [csrLookup, if_neg (h e (List.mem_cons_self e rest))]
    exact ih (fun x hx => h x (List.mem_cons_of_mem e hx))

theorem csrLookup_append_of_right_zero {i j : Nat} (a b : List (Nat × Nat × Rat))
    (h : csrLookup i j b = 0) : csrLookup i j (a ++ b) = csrLookup i j a := by
  induction a with
  | nil => simpa [csrLookup] using h
  | cons e rest ih =>
    by_cases he : e.1 = i ∧ e.2.1 = j
    · rw [List.cons_append, csrLookup, if_pos he, csrLookup, if_pos he]
    · rw [List.cons_append, csrLookup, if_neg he, csrLookup, if_neg he]
      exact ih

theorem csrLookup_append_of_no_match {i j : Nat} (a b : List (Nat × Nat × Rat))
    (h : ∀ e ∈ a, ¬(e.1 = i ∧ e.2.1 = j)) : csrLookup i j (a ++ b) = csrLookup i j b := by
  induction a with
  | nil => rfl
  | cons e rest ih =>
    rw [List.cons_append, csrLookup, if_neg (h e (List.mem_cons_self e rest))]
    exact ih (fun x hx => h x (List.mem_cons_of_mem e hx))

theorem csrLookup_rowToEntries (i : Nat) : ∀ (row : List Rat) (j0 k : Nat),
    k < row.length →
    csrLookup i (j0 + k) (rowToEntries i j0 row) = row.getD k 0 := by
  intro row
  induction row with
  | nil =>
    intro j0 k hk
    simp at hk
  | cons v vs ih =>
    intro j0 k hk
    by_cases hv : v = 0
    · rw [rowToEntries, if_pos hv]
      cases k with
      | zero =>
        have hz : csrLookup i (j0 + 0) (rowToEntries i (j0 + 1) vs) = 0 := by
          apply csrLookup_eq_zero
          intro e he hmatch
          have hcol := rowToEntries_col_ge i vs (j0 + 1) e he
          omega
        rw [hz, List.getD_cons_zero, hv]
      | succ m =>
        have hc : j0 + (m + 1) = (j0 + 1) + m := by omega
        rw [hc, ih (j0 + 1) m (by simpa using hk), List.getD_cons_succ]
    · rw [rowToEntries, if_neg hv]
      cases k with
      | zero =>
        rw [csrLookup, if_pos ⟨rfl, (Nat.add_zero j0).symm⟩, List.getD_cons_zero]
      | succ m =>
        rw [csrLookup, if_neg (fun hmatch => by
          have h2 : j0 = j0 + (m + 1) := hmatch.2
          omega)]
        have hc : j0 + (m + 1) = (j0 + 1) + m := by omega
        rw [hc, ih (j0 + 1) m (by simpa using hk), List.getD_cons_succ]

theorem denseToEntries_row_ge : ∀ (rows : List (List Rat)) (i0 : Nat),
    ∀ e ∈ denseToEntries i0 rows, i0 ≤ e.1 := by
  intro rows
  induction rows with
  | nil =>
    intro i0 e he
    simp [denseToEntries] at he
  | cons row rest ih =>
    intro i0 e he
    rw [denseToEntries] at he
    rcases List.mem_append.1 he with h | h
    · rw [rowToEntries_row_eq i0 row 0 e h]
    · have := ih (i0 + 1) e h
      omega

theorem csrLookup_denseToEntries : ∀ (rows : List (List Rat)) (i0 m j : Nat),
    m < rows.length → j < (rows.getD m []).length →
    csrLookup (i0 + m) j (denseToEntries i0 rows) = (rows.getD m []).getD j 0 := by
  intro rows
  induction rows with
  | nil =>
    intro i0 m j hm
    simp at hm
  | cons row rest ih =>
    intro i0 m j hm hj
    cases m with
    | zero =>
      rw [List.getD_cons_zero] at hj ⊢
      rw [denseToEntries]
      have hrest : csrLookup (i0 + 0) j (denseToEntries (i0 + 1) rest) = 0 := by
        apply csrLookup_eq_zero
        intro e he hmatch
        have := denseToEntries_row_ge rest (i0 + 1) e he
        omega
      rw [csrLookup_append_of_right_zero _ _ hrest]
      have h0 : i0 + 0 = i0 := by omega
      rw [h0]
      have := csrLookup_rowToEntries i0 row 0 j hj
      rw [Nat.zero_add] at this
      exact this
    | succ m =>
      rw [List.getD_cons_succ] at hj ⊢
      rw [denseToEntries]
      rw [csrLookup_append_of_no_match]
      · have hc : i0 + (m + 1) = (i0 + 1) + m := by omega
        rw [hc]
        exact ih (i0 + 1) m j (by simpa using hm) hj
      · intro e he hmatch
        have := rowToEntries_row_eq i0 row 0 e he
        omega

theorem entriesToDense_entry (n c : Nat) (es : List (Nat × Nat × Rat)) (i j : Nat)
    (hi : i < n) (hj : j < c) :
    denseEntry (entriesToDense n c es) i j = csrLookup i j es := by
  have h1 : i < (entriesToDense n c es).length := by
    simp [entriesToDense, hi]
  rw [denseEntry, List.getD_eq_getElem _ [] h1]
  simp only [entriesToDense]
  rw [List.getElem_map, List.getElem_range]
  have h2 : j < ((List.range c).map (fun k => csrLookup i k es)).length := by
    simp [hj]
  rw [List.getD_eq_getElem _ 0 h2, List.getElem_map, List.getElem_range]

theorem entriesToDense_denseToEntries (rows : List (List Rat))
    (hrect : ∀ r ∈ rows, r.length = ncolsOf rows) :
    entriesToDense rows.length (ncolsOf rows) (denseToEntries 0 rows) = rows := by
  apply List.ext_getElem
  · simp [entriesToDense]
  · intro n h1 h2
    simp only [entriesToDense]
    rw [List.getElem_map, List.getElem_range]
    apply List.ext_getElem
    · simp
      exact (hrect rows[n] (List.getElem_mem h2)).symm
    · intro j hj1 hj2
      rw [List.getElem_map, List.getElem_range]
      have hj : j < (rows.getD n []).length := by
        rw [List.getD_eq_getElem rows [] h2]
        exact hj2
      have hmain := csrLookup_denseToEntries rows 0 n j h2 hj
      rw [Nat.zero_add] at hmain
      rw [hmain, List.getD_eq_getElem rows [] h2,
        List.getD_eq_getElem rows[n] 0 hj2]

/-! ## Attribute-mapping lemmas -/

theorem gene_ids_ne_rownames : ("gene_ids" : String) ≠ "rownames" := by decide

theorem lookupAttr_renameRownames_none (l : List (String × List String)) :
    lookupAttr "rownames" (renameRownamesColumn l) = none := by
  induction l with
  | nil => rfl
  | cons p rest ih =>
    simp only [renameRownamesColumn, List.map_cons] at ih ⊢
    by_cases hp : p.1 = "rownames"
    · rw [if_pos hp, lookupAttr]
      rw [if_neg (fun hcontra => gene_ids_ne_rownames hcontra)]
      exact ih
    · rw [if_neg hp, lookupAttr, if_neg hp]
      exact ih

theorem lookupAttr_renameRownames_found (l : List (String × List String)) (vs : List String)
    (h1 : lookupAttr "rownames" l = some vs)
    (h2 : lookupAttr "gene_ids" l = none) :
    lookupAttr "gene_ids" (renameRownamesColumn l) = some vs := by
  induction l with
  | nil => exact absurd h1 (by simp [lookupAttr])
  | cons p rest ih =>
    simp only [renameRownamesColumn, List.map_cons] at ih ⊢
    by_cases hp : p.1 = "rownames"
    · rw [lookupAttr, if_pos hp] at h1
      have hvs : p.2 = vs := by injection h1
      rw [if_pos hp, lookupAttr, if_pos rfl, hvs]
    · have hpg : ¬p.1 = "gene_ids" := by
        intro hg
        rw [lookupAttr, if_pos hg] at h2
        exact Option.noConfusion h2
      rw [lookupAttr, if_neg hp] at h1
      rw [lookupAttr, if_neg hpg] at h2
      rw [if_neg hp, lookupAttr, if_neg hpg]
      exact ih h1 h2

theorem lookupAttr_append_of_none (k : String) (a b : List (String × List String))
    (h : lookupAttr k a = none) :
    lookupAttr k (a ++ b) = lookupAttr k b := by
  induction a with
  | nil => rfl
  | cons p rest ih =>
    by_cases hp : p.1 = k
    · rw [lookupAttr, if_pos hp] at h
      exact Option.noConfusion h
    · rw [lookupAttr, if_neg hp] at h
      rw [List.cons_append, lookupAttr, if_neg hp]
      exact ih h

/-! ## Bridge transposition lemmas -/

theorem bridge_convert_matrix_length (rows : List (List Rat)) :
    (bridge_convert_matrix rows).length = ncolsOf rows := by
  simp [bridge_convert_matrix]

theorem bridge_convert_matrix_entry (rows : List (List Rat)) (i j : Nat)
    (hi : i < ncolsOf rows) (hj : j < rows.length) :
    denseEntry (bridge_convert_matrix rows) i j = denseEntry rows j i := by
  have h1 : i < (bridge_convert_matrix rows).length := by
    rw [bridge_convert_matrix_length]
    exact hi
  rw [denseEntry, List.getD_eq_getElem _ [] h1]
  simp only [bridge_convert_matrix]
  rw [List.getElem_map, List.getElem_range]
  have h2 : j < ((List.range rows.length).map (fun k => denseEntry rows k i)).length := by
    simp [hj]
  rw [List.getD_eq_getElem _ 0 h2, List.getElem_map, List.getElem_range]

theorem bridge_convert_matrix_ncols (rows : List (List Rat)) (h : 0 < ncolsOf rows) :
    ncolsOf (bridge_convert_matrix rows) = rows.length := by
  obtain ⟨n, hn⟩ : ∃ n, ncolsOf rows = n + 1 := ⟨ncolsOf rows - 1, by omega⟩
  have hshape : bridge_convert_matrix rows
      = ((List.range rows.length).map (fun j => denseEntry rows j 0)) ::
        ((List.map Nat.succ (List.range n)).map
          (fun i => (List.range rows.length).map (fun j => denseEntry rows j i))) := by
    rw [bridge_convert_matrix, hn, List.range_succ_eq_map, List.map_cons]
  rw [ncolsOf, hshape, List.headD_cons]
  simp

/-! ## Claim theorems -/

/-- Claim C1: `normalize_observation_attribute_names` maps every
observation-attribute name by exactly the spec's transform — trim
leading/trailing whitespace, lowercase, replace each space with an
underscore, replace each period with an underscore — and in particular
sends the name "Source.Name" to exactly "source_name". -/
theorem c1_normalize_maps_each_name_exactly :
    (∀ d : Dataset, (normalize_observation_attribute_names d).obsAttrs
        = d.obsAttrs.map (fun p => (String.mk (specNormalizeName p.1.data), p.2)))
    ∧ normalizeNameStr "Source.Name" = "source_name" := by
  constructor
  · intro d
    simp only [normalize_observation_attribute_names]
    refine congrArg (fun f => List.map f d.obsAttrs) ?_
    funext p
    rw [normalizeNameStr, normalizeName_eq_spec]
  · decide

/-- Claim C2: applying `normalize_observation_attribute_names` twice yields
the same dataset as applying it once, for every input dataset. -/
theorem c2_normalize_idempotent (d : Dataset) :
    normalize_observation_attribute_names (normalize_observation_attribute_names d)
      = normalize_observation_attribute_names d := by
  simp [normalize_observation_attribute_names, List.map_map, Function.comp,
    normalizeNameStr_idem]

/-- Claim C3: importing an exported dataset reproduces the matrix values and
both attribute mappings exactly, modulo the documented identifier-placement
quirk — the variable identifiers come back as a regular variable attribute
named "rownames" rather than in the identifier slot. -/
theorem c3_loom_round_trip (d : Dataset)
    (h : lookupAttr "rownames" d.varAttrs = none) :
    (importLoom (exportLoom d)).X = d.X
    ∧ (importLoom (exportLoom d)).obsNames = d.obsNames
    ∧ (importLoom (exportLoom d)).obsAttrs = d.obsAttrs
    ∧ (importLoom (exportLoom d)).varAttrs = d.varAttrs ++ [("rownames", d.varNames)]
    ∧ lookupAttr "rownames" (importLoom (exportLoom d)).varAttrs = some d.varNames := by
  refine ⟨rfl, rfl, rfl, rfl, ?_⟩
  show lookupAttr "rownames" (d.varAttrs ++ [("rownames", d.varNames)]) = some d.varNames
  rw [lookupAttr_append_of_none _ _ _ h, lookupAttr, if_pos rfl]

theorem c3_witness :
    (importLoom (exportLoom exampleDataset)).varAttrs
        = exampleDataset.varAttrs ++ [("rownames", exampleDataset.varNames)]
    ∧ lookupAttr "rownames" (importLoom (exportLoom exampleDataset)).varAttrs
        = some exampleDataset.varNames := by
  have h := c3_loom_round_trip exampleDataset (by decide)
  exact ⟨h.2.2.2.1, h.2.2.2.2⟩

/-- Claim C4: the post-import fixup takes the variable identifiers held in
the regular variable attribute "rownames", renames that attribute to the
conventional "gene_ids" label, and places its values into the
variable-identifier slot; afterwards no ordinary variable attribute named
"rownames" remains. -/
theorem c4_fix_var_index_moves_identifiers (d : Dataset) (vs : List String)
    (h1 : lookupAttr "rownames" d.varAttrs = some vs)
    (h2 : lookupAttr "gene_ids" d.varAttrs = none) :
    (fix_var_index d).varNames = vs
    ∧ lookupAttr "gene_ids" (fix_var_index d).varAttrs = some vs
    ∧ lookupAttr "rownames" (fix_var_index d).varAttrs = none := by
  have hg := lookupAttr_renameRownames_found d.varAttrs vs h1 h2
  refine ⟨?_, ?_, ?_⟩
  · show (lookupAttr "gene_ids" (renameRownamesColumn d.varAttrs)).getD d.varNames = vs
    rw [hg]
    rfl
  · exact hg
  · exact lookupAttr_renameRownames_none d.varAttrs

theorem c4_witness :
    (fix_var_index exampleImported).varNames = ["geneA", "geneB"]
    ∧ lookupAttr "gene_ids" (fix_var_index exampleImported).varAttrs
        = some ["geneA", "geneB"]
    ∧ lookupAttr "rownames" (fix_var_index exampleImported).varAttrs = none :=
  c4_fix_var_index_moves_identifiers exampleImported ["geneA", "geneB"]
    (by decide) (by decide)

/-- Claim C5: `rename_matrix` with the new name "counts" yields a dataset
whose matrix tag is exactly "counts", with the matrix values, axis
identifiers, and both attribute mappings unchanged. -/
theorem c5_rename_matrix_pure (d : Dataset) :
    (rename_matrix d "counts").assayName = "counts"
    ∧ (rename_matrix d "counts").X = d.X
    ∧ (rename_matrix d "counts").obsNames = d.obsNames
    ∧ (rename_matrix d "counts").varNames = d.varNames
    ∧ (rename_matrix d "counts").obsAttrs = d.obsAttrs
    ∧ (rename_matrix d "counts").varAttrs = d.varAttrs :=
  ⟨rfl, rfl, rfl, rfl, rfl, rfl⟩

/-- Claim C6: for every dataset, sparsifying and then densifying preserves
all numeric matrix values bit-for-bit, and each coercion alone alters no
numeric value, axis identifier, or attribute.  For a dataset in
(rectangular) dense storage the round trip restores the dataset exactly and
the sparsification step preserves every entry and every non-matrix field;
for a dataset already in sparse storage the sparsification is the identity
and the densification step alone preserves every entry and every
non-matrix field. -/
theorem c6_sparse_dense_round_trip :
    (∀ (d : Dataset) (rows : List (List Rat)), d.X = MatrixRep.dense rows →
      (∀ r ∈ rows, r.length = ncolsOf rows) →
      coerce_matrix_dense (coerce_matrix_sparse d) = d
      ∧ (coerce_matrix_sparse d).obsNames = d.obsNames
      ∧ (coerce_matrix_sparse d).varNames = d.varNames
      ∧ (coerce_matrix_sparse d).obsAttrs = d.obsAttrs
      ∧ (coerce_matrix_sparse d).varAttrs = d.varAttrs
      ∧ (coerce_matrix_sparse d).assayName = d.assayName
      ∧ (∀ i j, i < rows.length → j < ncolsOf rows →
          (coerce_matrix_sparse d).X.entry i j = d.X.entry i j))
    ∧ (∀ (d : Dataset) (n c : Nat) (es : List (Nat × Nat × Rat)),
      d.X = MatrixRep.csr n c es →
      coerce_matrix_sparse d = d
      ∧ (coerce_matrix_dense d).obsNames = d.obsNames
      ∧ (coerce_matrix_dense d).varNames = d.varNames
      ∧ (coerce_matrix_dense d).obsAttrs = d.obsAttrs
      ∧ (coerce_matrix_dense d).varAttrs = d.varAttrs
      ∧ (coerce_matrix_dense d).assayName = d.assayName
      ∧ (∀ i j, i < n → j < c →
          (coerce_matrix_dense d).X.entry i j = d.X.entry i j)
      ∧ (∀ i j, i < n → j < c →
          (coerce_matrix_dense (coerce_matrix_sparse d)).X.entry i j = d.X.entry i j)) := by
  constructor
  · intro d rows hX hrect
    refine ⟨?_, rfl, rfl, rfl, rfl, rfl, ?_⟩
    · have hstep : coerce_matrix_dense (coerce_matrix_sparse d) = { d with X := MatrixRep.dense (entriesToDense rows.length (ncolsOf rows) (denseToEntries 0 rows)) } := by
        simp [coerce_matrix_sparse, coerce_matrix_dense, hX]
      rw [hstep, entriesToDense_denseToEntries rows hrect, ← hX]
    · intro i j hi hj
      have hXs : (coerce_matrix_sparse d).X
          = MatrixRep.csr rows.length (ncolsOf rows) (denseToEntries 0 rows) := by
        simp [coerce_matrix_sparse, hX]
      rw [hXs, hX]
      show csrLookup i j (denseToEntries 0 rows) = denseEntry rows i j
      have hj2 : j < (rows.getD i []).length := by
        rw [List.getD_eq_getElem rows [] hi, hrect rows[i] (List.getElem_mem hi)]
        exact hj
      have hmain := csrLookup_denseToEntries rows 0 i j hi hj2
      rw [Nat.zero_add] at hmain
      rw [hmain]
      rw [denseEntry, List.getD_eq_getElem rows [] hi]
  · intro d n c es hX
    have hid : coerce_matrix_sparse d = d := by
      have h1 : coerce_matrix_sparse d = { d with X := MatrixRep.csr n c es } := by
        simp [coerce_matrix_sparse, hX]
      rw [h1, ← hX]
    have hent : ∀ i j, i < n → j < c →
        (coerce_matrix_dense d).X.entry i j = d.X.entry i j := by
      intro i j hi hj
      have hXd : (coerce_matrix_dense d).X
          = MatrixRep.dense (entriesToDense n c es) := by
        simp [coerce_matrix_dense, hX]
      rw [hXd, hX]
      show denseEntry (entriesToDense n c es) i j = csrLookup i j es
      exact entriesToDense_entry n c es i j hi hj
    refine ⟨hid, rfl, rfl, rfl, rfl, rfl, hent, ?_⟩
    intro i j hi hj
    rw [hid]
    exact hent i j hi hj

theorem c6_witness :
    coerce_matrix_dense (coerce_matrix_sparse exampleDataset) = exampleDataset
    ∧ (coerce_matrix_sparse exampleDataset).X.entry 0 1
        = exampleDataset.X.entry 0 1
    ∧ coerce_matrix_sparse exampleSparseDataset = exampleSparseDataset
    ∧ (coerce_matrix_dense exampleSparseDataset).X.entry 1 1
        = exampleSparseDataset.X.entry 1 1
    ∧ (coerce_matrix_dense (coerce_matrix_sparse exampleSparseDataset)).X.entry 1 1
        = exampleSparseDataset.X.entry 1 1 := by
  have h1 := c6_sparse_dense_round_trip.1 exampleDataset [[1, 0], [0, 2]] rfl (by decide)
  have h2 := c6_sparse_dense_round_trip.2 exampleSparseDataset 2 2
    [(0, 0, 1), (1, 1, 2)] rfl
  exact ⟨h1.1, h1.2.2.2.2.2.2 0 1 (by decide) (by decide), h2.1,
    h2.2.2.2.2.2.2.1 1 1 (by decide) (by decide),
    h2.2.2.2.2.2.2.2 1 1 (by decide) (by decide)⟩

/-- Claim C7 (counterexample): the bridge does not pass every
attribute-name string through unchanged.  On the notebook's own recorded
run, the first bridged observation-attribute name is "Source Name", and
passing the dataset back across the bridge into R yields "Source.Name" for
it — a different string. -/
theorem c7_counterexample :
    annObsNamesRecorded.headD "" = "Source Name"
    ∧ bridge_py_to_r_name "Source Name" = "Source.Name"
    ∧ bridge_py_to_r_name "Source Name" ≠ "Source Name" := by
  refine ⟨rfl, ?_, ?_⟩ <;> decide

/-- Claim C7 (amended): numeric matrix values are preserved exactly by the
bridge (at transposed positions); attribute-name strings are passed through
unchanged in the R-to-Python direction, but in the Python-to-R direction
each name is rewritten to R's naming convention, spaces and hyphens
becoming periods, as the notebook's recorded outputs show. -/
theorem c7_bridge_names_and_values :
    (∀ s : String, bridge_r_to_py_name s = s)
    ∧ (annObsNamesRecorded.map bridge_py_to_r_name).length = 9
    ∧ (annObsNamesRecorded.map bridge_py_to_r_name).take 2 = ["Source.Name", "cell.line"]
    ∧ (annObsNamesRecorded.map bridge_py_to_r_name).drop 7 = ["spike.in.addition", "block"]
    ∧ (∀ rows : List (List Rat), ∀ i j : Nat, i < ncolsOf rows → j < rows.length →
        denseEntry (bridge_convert_matrix rows) i j = denseEntry rows j i) := by
  refine ⟨fun s => rfl, by decide, by decide, by decide, ?_⟩
  intro rows i j hi hj
  exact bridge_convert_matrix_entry rows i j hi hj

theorem c7_witness :
    denseEntry (bridge_convert_matrix ([[1, 2], [3, 4]] : List (List Rat))) 0 1
      = denseEntry ([[1, 2], [3, 4]] : List (List Rat)) 1 0 :=
  c7_bridge_names_and_values.2.2.2.2 [[1, 2], [3, 4]] 0 1 (by decide) (by decide)

/-- Claim C8: `normalize_observation_attribute_names` changes only the
observation-attribute name keys — the matrix, both axis-identifier
sequences, the variable attributes, the matrix tag, and the
observation-attribute value sequences (and their order and count) are
unchanged. -/
theorem c8_normalize_only_renames_keys (d : Dataset) :
    (normalize_observation_attribute_names d).X = d.X
    ∧ (normalize_observation_attribute_names d).obsNames = d.obsNames
    ∧ (normalize_observation_attribute_names d).varNames = d.varNames
    ∧ (normalize_observation_attribute_names d).varAttrs = d.varAttrs
    ∧ (normalize_observation_attribute_names d).assayName = d.assayName
    ∧ (normalize_observation_attribute_names d).obsAttrs.map Prod.snd
        = d.obsAttrs.map Prod.snd
    ∧ (normalize_observation_attribute_names d).obsAttrs.length = d.obsAttrs.length := by
  refine ⟨rfl, rfl, rfl, rfl, rfl, ?_, ?_⟩
  · show (d.obsAttrs.map (fun p => (normalizeNameStr p.1, p.2))).map Prod.snd
        = d.obsAttrs.map Prod.snd
    rw [List.map_map]
    rfl
  · simp [normalize_observation_attribute_names]

/-- Claim C10: the bridge transposes the matrix axes — the recorded shapes
are 46604 by 192 on the R side and 192 by 46604 on the Python side — and
for every matrix the converted value's entry at (observation i, variable j)
equals the source's entry at (variable j, observation i). -/
theorem c10_bridge_transposes :
    annShapeRecorded = (sceDimRecorded.2, sceDimRecorded.1)
    ∧ (∀ rows : List (List Rat), (bridge_convert_matrix rows).length = ncolsOf rows)
    ∧ (∀ rows : List (List Rat), 0 < ncolsOf rows →
        ncolsOf (bridge_convert_matrix rows) = rows.length)
    ∧ (∀ rows : List (List Rat), ∀ i j : Nat, i < ncolsOf rows → j < rows.length →
        denseEntry (bridge_convert_matrix rows) i j = denseEntry rows j i) :=
  ⟨rfl, bridge_convert_matrix_length, bridge_convert_matrix_ncols,
    bridge_convert_matrix_entry⟩

theorem c10_witness :
    ncolsOf (bridge_convert_matrix ([[1, 2], [3, 4]] : List (List Rat)))
      = ([[1, 2], [3, 4]] : List (List Rat)).length
    ∧ denseEntry (bridge_convert_matrix ([[1, 2], [3, 4]] : List (List Rat))) 1 0
      = denseEntry ([[1, 2], [3, 4]] : List (List Rat)) 0 1 :=
  ⟨c10_bridge_transposes.2.2.1 [[1, 2], [3, 4]] (by decide),
   c10_bridge_transposes.2.2.2 [[1, 2], [3, 4]] 1 0 (by decide) (by decide)⟩
